import Mathlib

/-!
# Verification of the RDS decoder (`src/grc/rds_decoder.py`)

Shallow embedding of the decoder's state, syndrome engine, block dispatcher
(`process_block`) and per-symbol work loop (`work`), translated from the
Python source.  Machine integers are modelled as `Nat` (all masking in the
source is explicit: `& 0x3FF`, `& 0x3FFFFFF`, `& 0xFF`, `& 0x01`), except
`last_block_id`, which the source initialises to `-1` and is therefore an
`Int` (Python's `%` on a positive modulus agrees with `Int.emod`).
Console prints announcing a confirmed PI code and message-port publication
of the PS name are modelled as emitted events; purely diagnostic prints are
not modelled.
-/

/-- Offset-word constant for block A (source line 21). -/
def OFFSET_A : Nat := 0b0011111100

/-- Offset-word constant for block B (source line 22). -/
def OFFSET_B : Nat := 0b0110011000

/-- Offset-word constant for block C (source line 23). -/
def OFFSET_C : Nat := 0b0101101000

/-- Offset-word constant for block C' (source line 24). -/
def OFFSET_Cp : Nat := 0b1101010000

/-- Offset-word constant for block D (source line 25). -/
def OFFSET_D : Nat := 0b0110110100

/-- `STATE_SEARCH = 0` (source line 28). -/
def STATE_SEARCH : Nat := 0

/-- `STATE_PRESYNC_B = 1` (source line 29). -/
def STATE_PRESYNC_B : Nat := 1

/-- `STATE_PRESYNC_C = 2` (source line 30). -/
def STATE_PRESYNC_C : Nat := 2

/-- `STATE_SYNCED = 3` (source line 31). -/
def STATE_SYNCED : Nat := 3

/-- `MAX_ERRORS = 5` (source line 46). -/
def MAX_ERRORS : Nat := 5

/-- Events observable from the decoder: the `PI Code Confirmed` print
(source line 161) and the `ps_out` message-port publication of the
8-character station name (source line 202). -/
inductive RdsEvent where
  | piConfirmed (code : Nat)
  | stationNameUpdated (name : List Nat)
deriving Repr, DecidableEq

/-- `true` exactly on `stationNameUpdated` events. -/
def RdsEvent.isPS : RdsEvent → Bool
  | .stationNameUpdated _ => true
  | .piConfirmed _ => false

/-- The decoder's mutable state, one field per instance attribute set in
`__init__` (source lines 33-46); the `group_data` dict is split into its
three possible keys `PI`, `type` and `B`, each an `Option` that is `none`
while the key is absent. -/
structure Decoder where
  state : Nat
  presync_bit_count : Nat
  bit_buffer : Nat
  last_block_id : Int
  group_PI : Option Nat
  group_type : Option Nat
  group_B : Option Nat
  ps_name : List Nat
  pi_code : Nat
  pi_code_counts : List (Nat × Nat)
  last_bit : Nat
  bit_counter : Nat
  error_counter : Nat
deriving Repr, DecidableEq

/-- The freshly constructed decoder (source lines 33-46): SEARCH state,
empty buffers, `last_block_id = -1`, `ps_name` of eight blanks (code 32),
`pi_code = 0`, empty candidate table. -/
def initDecoder : Decoder :=
  { state := STATE_SEARCH
    presync_bit_count := 0
    bit_buffer := 0
    last_block_id := -1
    group_PI := none
    group_type := none
    group_B := none
    ps_name := List.replicate 8 32
    pi_code := 0
    pi_code_counts := []
    last_bit := 0
    bit_counter := 0
    error_counter := 0 }

/-- 10-bit syndrome of a 26-bit window (source lines 48-56): feed bits
25..0 most-significant-first through the LFSR with mask `0x3FF` and
feedback constant `0x1B9`. -/
def syndrome (m : Nat) : Nat :=
  (List.range 26).foldl
    (fun reg j =>
      let i := 25 - j
      let bit := (m >>> i) &&& 1
      let reg_msb := (reg >>> 9) &&& 1
      let reg2 := (reg <<< 1) &&& 0x3FF
      if (bit ^^^ reg_msb) = 1 then reg2 ^^^ 0x1B9 else reg2)
    0

/-- Membership test of a Python dict modelled as an association list. -/
def dictMem (d : List (Nat × Nat)) (k : Nat) : Bool :=
  d.any (fun p => p.1 == k)

/-- Lookup in the modelled dict, defaulting to 0 for an absent key. -/
def dictGetD (d : List (Nat × Nat)) (k : Nat) : Nat :=
  match d.find? (fun p => p.1 == k) with
  | some p => p.2
  | none => 0

/-- `d[k] = v` on the modelled dict: overwrite in place when the key is
present, append otherwise (Python dicts keep insertion order). -/
def dictSet (d : List (Nat × Nat)) (k v : Nat) : List (Nat × Nat) :=
  if dictMem d k then d.map (fun p => if p.1 == k then (p.1, v) else p)
  else d ++ [(k, v)]

/-- `if data_16 not in counts: counts[data_16] = 0` followed by
`counts[data_16] += 1` (source lines 155-156). -/
def piIncrement (d : List (Nat × Nat)) (k : Nat) : List (Nat × Nat) :=
  let d0 := if dictMem d k then d else dictSet d k 0
  dictSet d0 k (dictGetD d0 k + 1)

/-- `process_block` (source lines 152-207): block A updates the PI
candidate table and possibly confirms a PI; block B stores the group type
and raw payload; block D (id 4) writes station-name characters for group
type 0 and publishes the name when segment 3 (buffer index 6) is written.
Other ids fall through with no effect. -/
def process_block (s : Decoder) (block_id : Int) (data_16 : Nat) :
    Decoder × List RdsEvent :=
  if block_id = 0 then
    let d1 := piIncrement s.pi_code_counts data_16
    if dictGetD d1 data_16 > 2 then
      if s.pi_code ≠ data_16 then
        ({ s with pi_code := data_16
                  pi_code_counts := [(data_16, 10)]
                  group_PI := some data_16 },
         [RdsEvent.piConfirmed data_16])
      else
        ({ s with pi_code := data_16
                  pi_code_counts := d1
                  group_PI := some data_16 }, [])
    else
      ({ s with pi_code_counts := d1, group_PI := some data_16 }, [])
  else if block_id = 1 then
    let group_type_int := (data_16 >>> 11) &&& 0x1F
    ({ s with group_type := some group_type_int, group_B := some data_16 }, [])
  else if block_id = 4 then
    match s.group_type with
    | none => (s, [])
    | some gtype =>
      if gtype = 0 then
        let b_block := s.group_B.getD 0
        let segment_addr := b_block &&& 0x03
        let char1 := (data_16 >>> 8) &&& 0xFF
        let char2 := data_16 &&& 0xFF
        let idx := segment_addr * 2
        let ps1 := if 32 ≤ char1 ∧ char1 ≤ 126 then s.ps_name.set idx char1
                   else s.ps_name
        let ps2 := if 32 ≤ char2 ∧ char2 ≤ 126 then ps1.set (idx + 1) char2
                   else ps1
        if idx = 6 then
          ({ s with ps_name := ps2 }, [RdsEvent.stationNameUpdated ps2])
        else
          ({ s with ps_name := ps2 }, [])
      else (s, [])
  else (s, [])

/-- Offset classification in the SYNCED branch (source lines 122-127):
which block id a syndrome denotes, `-1` when it is no offset word. -/
def offsetFound (syn : Nat) : Int :=
  if syn = OFFSET_A then 0
  else if syn = OFFSET_B then 1
  else if syn = OFFSET_C then 2
  else if syn = OFFSET_Cp then 3
  else if syn = OFFSET_D then 4
  else -1

/-- Validity test in the SYNCED branch (source lines 129-133): when the
expected id is 2 accept C or C', otherwise require an exact match with
`expected = (last_block_id + 1) % 4`. -/
def validFor (last : Int) (syn : Nat) : Bool :=
  let expected := (last + 1) % 4
  if expected = 2 then offsetFound syn == 2 || offsetFound syn == 3
  else offsetFound syn == expected

/-- The 26-bit window and differential-decoder memory after consuming a
list of raw symbols, starting from window `buf` and last raw symbol `lb`
(the buffer update of source line 73 iterated). -/
def bufAfter : List Nat → Nat → Nat → Nat × Nat
  | [], buf, lb => (buf, lb)
  | b :: bs, buf, lb =>
      bufAfter bs (((buf <<< 1) ||| ((b &&& 1) ^^^ lb)) &&& 0x3FFFFFF) (b &&& 1)

/-- The window the state machine examines right after `stepBit s b`
updates the buffer (source lines 69-73). -/
def nextWindow (s : Decoder) (b : Nat) : Nat :=
  ((s.bit_buffer <<< 1) ||| ((b &&& 1) ^^^ s.last_bit)) &&& 0x3FFFFFF

/-- One iteration of the per-symbol loop in `work` (source lines 68-148):
differential decode, 26-bit window shift, then the four-state machine. -/
def stepBit (s : Decoder) (raw_bit : Nat) : Decoder × List RdsEvent :=
  let s := { s with
               last_bit := raw_bit &&& 1
               bit_buffer := nextWindow s raw_bit }
  if s.state = STATE_SEARCH then
    if syndrome s.bit_buffer = OFFSET_A then
      process_block { s with state := STATE_PRESYNC_B, presync_bit_count := 0 }
        0 (s.bit_buffer >>> 10)
    else (s, [])
  else if s.state = STATE_PRESYNC_B then
    let s := { s with presync_bit_count := s.presync_bit_count + 1 }
    if s.presync_bit_count = 26 then
      if syndrome s.bit_buffer = OFFSET_B then
        process_block
          { s with state := STATE_PRESYNC_C, last_block_id := 1,
                   presync_bit_count := 0 }
          1 (s.bit_buffer >>> 10)
      else ({ s with state := STATE_SEARCH }, [])
    else (s, [])
  else if s.state = STATE_PRESYNC_C then
    let s := { s with presync_bit_count := s.presync_bit_count + 1 }
    if s.presync_bit_count = 26 then
      if syndrome s.bit_buffer = OFFSET_C ∨ syndrome s.bit_buffer = OFFSET_Cp then
        process_block
          { s with state := STATE_SYNCED, last_block_id := 2,
                   error_counter := 0, presync_bit_count := 0 }
          2 (s.bit_buffer >>> 10)
      else ({ s with state := STATE_SEARCH }, [])
    else (s, [])
  else if s.state = STATE_SYNCED then
    let s := { s with presync_bit_count := s.presync_bit_count + 1 }
    if s.presync_bit_count = 26 then
      let s := { s with presync_bit_count := 0 }
      let syn := syndrome s.bit_buffer
      let expected : Int := (s.last_block_id + 1) % 4
      if validFor s.last_block_id syn then
        process_block
          { s with error_counter := 0,
                   last_block_id :=
                     if offsetFound syn = 3 then 2 else offsetFound syn }
          (offsetFound syn) (s.bit_buffer >>> 10)
      else
        let s := { s with error_counter := s.error_counter + 1,
                          last_block_id := expected }
        if s.error_counter ≥ MAX_ERRORS then
          ({ s with state := STATE_SEARCH, ps_name := List.replicate 8 32 }, [])
        else (s, [])
    else (s, [])
  else (s, [])

/-- Fold step of the symbol loop: run one symbol and append its events. -/
def stepFold (acc : Decoder × List RdsEvent) (b : Nat) : Decoder × List RdsEvent :=
  ((stepBit acc.1 b).1, acc.2 ++ (stepBit acc.1 b).2)

/-- Run the per-symbol loop over a list of symbols, accumulating events. -/
def runBits (s : Decoder) (bits : List Nat) : Decoder × List RdsEvent :=
  bits.foldl stepFold (s, [])

/-- One `work` call on a batch (source lines 58-150): bump `bit_counter`
by the batch length, then process every symbol in order. -/
def work (s : Decoder) (input : List Nat) : Decoder × List RdsEvent :=
  runBits { s with bit_counter := s.bit_counter + input.length } input


/-! ## Basic structural lemmas -/

theorem process_block_fields (s : Decoder) (id : Int) (d : Nat) :
    (process_block s id d).1.state = s.state ∧
    (process_block s id d).1.bit_buffer = s.bit_buffer ∧
    (process_block s id d).1.last_bit = s.last_bit ∧
    (process_block s id d).1.presync_bit_count = s.presync_bit_count ∧
    (process_block s id d).1.error_counter = s.error_counter ∧
    (process_block s id d).1.last_block_id = s.last_block_id ∧
    (process_block s id d).1.bit_counter = s.bit_counter := by
  unfold process_block
  dsimp only
  repeat' split
  all_goals exact ⟨rfl, rfl, rfl, rfl, rfl, rfl, rfl⟩

theorem stepBit_window (s : Decoder) (b : Nat) :
    (stepBit s b).1.bit_buffer = nextWindow s b ∧
    (stepBit s b).1.last_bit = b &&& 1 := by
  simp only [stepBit]
  repeat' split
  all_goals first
    | exact ⟨rfl, rfl⟩
    | exact ⟨(process_block_fields _ _ _).2.1, (process_block_fields _ _ _).2.2.1⟩

theorem foldl_stepFold_acc (bits : List Nat) :
    ∀ (t : Decoder) (es : List RdsEvent),
      bits.foldl stepFold (t, es) =
        ((bits.foldl stepFold (t, [])).1,
         es ++ (bits.foldl stepFold (t, [])).2) := by
  induction bits with
  | nil => intro t es; simp
  | cons b bs ih =>
    intro t es
    simp only [List.foldl_cons, stepFold]
    rw [ih ((stepBit t b).1) (es ++ (stepBit t b).2),
        ih ((stepBit t b).1) ([] ++ (stepBit t b).2)]
    simp

theorem runBits_nil (s : Decoder) : runBits s [] = (s, []) := rfl

theorem runBits_cons (s : Decoder) (b : Nat) (bs : List Nat) :
    runBits s (b :: bs) =
      ((runBits (stepBit s b).1 bs).1,
       (stepBit s b).2 ++ (runBits (stepBit s b).1 bs).2) := by
  unfold runBits
  simp only [List.foldl_cons, stepFold]
  rw [foldl_stepFold_acc bs ((stepBit s b).1) ([] ++ (stepBit s b).2)]
  simp

theorem runBits_append (s : Decoder) (xs ys : List Nat) :
    runBits s (xs ++ ys) =
      ((runBits (runBits s xs).1 ys).1,
       (runBits s xs).2 ++ (runBits (runBits s xs).1 ys).2) := by
  unfold runBits
  rw [List.foldl_append]
  have h : (xs.foldl stepFold ((s : Decoder), ([] : List RdsEvent))) =
      ((xs.foldl stepFold (s, [])).1, (xs.foldl stepFold (s, [])).2) := rfl
  rw [h, foldl_stepFold_acc ys]

theorem bufAfter_append (xs : List Nat) :
    ∀ (ys : List Nat) (buf lb : Nat),
      bufAfter (xs ++ ys) buf lb =
        bufAfter ys (bufAfter xs buf lb).1 (bufAfter xs buf lb).2 := by
  induction xs with
  | nil => intro ys buf lb; rfl
  | cons b bs ih =>
    intro ys buf lb
    simp only [List.cons_append, bufAfter]
    exact ih ys _ _

/-! ## All-zero input is inert in SEARCH (claim C8) -/

theorem stepBit_zero (s : Decoder) (h1 : s.state = STATE_SEARCH)
    (h2 : s.bit_buffer = 0) (h3 : s.last_bit = 0) :
    stepBit s 0 = (s, []) := by
  have hA : ¬ (syndrome 0 = OFFSET_A) := by decide
  obtain ⟨st, pc, bb, lbi, gp, gt, gb, ps, pic, picc, lb, bc, ec⟩ := s
  simp only [STATE_SEARCH] at h1
  simp only at h2 h3
  subst h1; subst h2; subst h3
  simp [stepBit, nextWindow, STATE_SEARCH, hA]

theorem runBits_zeros (n : Nat) (s : Decoder) (h1 : s.state = STATE_SEARCH)
    (h2 : s.bit_buffer = 0) (h3 : s.last_bit = 0) :
    runBits s (List.replicate n 0) = (s, []) := by
  induction n with
  | zero => rfl
  | succ n ih =>
    rw [List.replicate_succ, runBits_cons, stepBit_zero s h1 h2 h3]
    simp [ih]

/-! ## No block id 4 is ever dispatched (towards claims C1/C2) -/

theorem process_block_no_ps (s : Decoder) (id : Int) (d : Nat) (h : id ≠ 4) :
    ((process_block s id d).2.all (fun e => !e.isPS)) = true := by
  unfold process_block
  dsimp only
  repeat' split
  all_goals simp_all [RdsEvent.isPS]

theorem validFor_ne_four (last : Int) (syn : Nat)
    (h : validFor last syn = true) : offsetFound syn ≠ 4 := by
  simp only [validFor] at h
  by_cases he : (last + 1) % 4 = 2
  · rw [if_pos he] at h
    simp only [Bool.or_eq_true, beq_iff_eq] at h
    rcases h with h | h <;> simp [h]
  · rw [if_neg he] at h
    simp only [beq_iff_eq] at h
    intro hc
    rw [hc] at h
    have h4 := Int.emod_lt_of_pos (last + 1) (by norm_num : (0:Int) < 4)
    omega

theorem stepBit_no_ps (s : Decoder) (b : Nat) :
    ((stepBit s b).2.all (fun e => !e.isPS)) = true := by
  simp only [stepBit]
  repeat' split
  all_goals first
    | rfl
    | exact process_block_no_ps _ _ _ (by decide)
    | exact process_block_no_ps _ _ _ (validFor_ne_four _ _ (by assumption))

theorem runBits_no_ps (bits : List Nat) : ∀ (s : Decoder),
    ((runBits s bits).2.all (fun e => !e.isPS)) = true := by
  induction bits with
  | nil => intro s; rfl
  | cons b bs ih =>
    intro s
    rw [runBits_cons]
    simp only [List.all_append, Bool.and_eq_true]
    exact ⟨stepBit_no_ps s b, ih _⟩

/-- C2 (code bug): the decoder can never publish a station name.  In the
SYNCED state the expected block id `(last_block_id + 1) % 4` lies in
{0,1,2,3} while a window with D's syndrome is classified as id 4 (source
lines 25 and 120-133), so `process_block` is never invoked with id 4 and
the `ps_out` publication (source line 202) is unreachable from the symbol
loop: for every starting state and every input batch, no
`StationNameUpdated` event is emitted — contradicting the claim that a
locked decoder fed four correct 0A groups spelling "TESTFM  " fires
`StationNameUpdated` once. -/
theorem c2_station_name_never_emitted (s : Decoder) (input : List Nat) :
    ((work s input).2.all (fun e => !e.isPS)) = true := by
  unfold work
  exact runBits_no_ps input _

/-- C8: a fresh decoder fed 20000 zero symbols emits no event and never
leaves SEARCH, because the all-zero window keeps syndrome 0, which equals
none of the five offset-word constants. -/
theorem c8_all_zero_stream_inert :
    (work initDecoder (List.replicate 20000 0)).2 = [] ∧
    (work initDecoder (List.replicate 20000 0)).1.state = STATE_SEARCH ∧
    syndrome 0 = 0 ∧ OFFSET_A ≠ 0 ∧ OFFSET_B ≠ 0 ∧ OFFSET_C ≠ 0 ∧
    OFFSET_Cp ≠ 0 ∧ OFFSET_D ≠ 0 := by
  have h := runBits_zeros 20000
      { initDecoder with
          bit_counter := initDecoder.bit_counter + (List.replicate 20000 (0:Nat)).length }
      rfl rfl rfl
  refine ⟨?_, ?_, by decide, by decide, by decide, by decide, by decide, by decide⟩
  · unfold work
    rw [h]
  · unfold work
    rw [h]
    rfl

/-! ## Only the parity of each symbol matters (claim C10) -/

theorem stepBit_parity (s : Decoder) (a b : Nat) (h : a % 2 = b % 2) :
    stepBit s a = stepBit s b := by
  have hand : a &&& 1 = b &&& 1 := by
    rw [Nat.and_one_is_mod, Nat.and_one_is_mod, h]
  simp only [stepBit, nextWindow, hand]

theorem runBits_parity (xs : List Nat) : ∀ (ys : List Nat) (s : Decoder),
    xs.map (fun x => x % 2) = ys.map (fun x => x % 2) →
    runBits s xs = runBits s ys := by
  induction xs with
  | nil =>
    intro ys s h
    cases ys with
    | nil => rfl
    | cons b bs => simp at h
  | cons a as ih =>
    intro ys s h
    cases ys with
    | nil => simp at h
    | cons b bs =>
      simp only [List.map_cons, List.cons.injEq] at h
      rw [runBits_cons, runBits_cons, stepBit_parity s a b h.1, ih bs _ h.2]

/-- C10: processing depends only on the least-significant bit of each
symbol: two equal-length batches that agree modulo 2 at every position
drive the decoder to the same state and the same event list. -/
theorem c10_parity_determines_behavior (s : Decoder) (xs ys : List Nat)
    (h : xs.map (fun x => x % 2) = ys.map (fun x => x % 2)) :
    work s xs = work s ys := by
  have hlen : xs.length = ys.length := by
    have hc := congrArg List.length h
    simpa using hc
  unfold work
  rw [hlen]
  exact runBits_parity xs ys _ h

/-- Witness for C10 at the concrete batches [0,1,2] and [2,3,4]. -/
theorem c10_parity_witness :
    (([0, 1, 2] : List Nat).map (fun x => x % 2) =
      ([2, 3, 4] : List Nat).map (fun x => x % 2)) ∧
    work initDecoder [0, 1, 2] = work initDecoder [2, 3, 4] :=
  ⟨by decide,
   c10_parity_determines_behavior initDecoder [0, 1, 2] [2, 3, 4] (by decide)⟩

/-! ## The D block following C is rejected while SYNCED (claim C1) -/

/-- C1 (code bug): in the SYNCED state with `last_block_id = 2` (a C or C'
block was just accepted), the check 26 bits later on a window whose
syndrome is D's offset word is NOT a match: the source computes
`expected = (2 + 1) % 4 = 3` but classifies the D syndrome as id 4
(source lines 25 and 127), so instead of dispatching the payload as block
D and resetting the error counter, the code dispatches nothing, increments
the error counter to 1 and advances `last_block_id` to 3. -/
theorem c1_D_after_C_not_dispatched (s : Decoder) (b : Nat)
    (h1 : s.state = STATE_SYNCED) (h2 : s.last_block_id = 2)
    (h3 : s.presync_bit_count = 25) (h4 : s.error_counter = 0)
    (h5 : syndrome (nextWindow s b) = OFFSET_D) :
    (stepBit s b).2 = [] ∧
    (stepBit s b).1.error_counter = 1 ∧
    (stepBit s b).1.last_block_id = 3 ∧
    (stepBit s b).1.state = STATE_SYNCED := by
  have hval : validFor 2 OFFSET_D = false := by decide
  obtain ⟨st, pc, bb, lbi, gp, gt, gb, ps, pic, picc, lb, bc, ec⟩ := s
  simp only [STATE_SYNCED] at h1
  simp only at h2 h3 h4
  subst h1; subst h2; subst h3; subst h4
  simp only [stepBit, nextWindow] at h5 ⊢
  rw [Nat.and_one_is_mod] at h5
  simp [STATE_SEARCH, STATE_PRESYNC_B, STATE_PRESYNC_C, STATE_SYNCED,
        MAX_ERRORS, h5, hval]

/-- A SYNCED decoder state that has just accepted block C and whose next
shifted window (after raw symbol 1) is 547, a window with D's syndrome. -/
def lockedAfterC : Decoder :=
  { initDecoder with state := STATE_SYNCED, last_block_id := 2,
                     presync_bit_count := 25, bit_buffer := 273, last_bit := 0 }

/-- Witness for C1 at the concrete state `lockedAfterC` and symbol 1. -/
theorem c1_D_after_C_witness :
    lockedAfterC.state = STATE_SYNCED ∧ lockedAfterC.last_block_id = 2 ∧
    lockedAfterC.presync_bit_count = 25 ∧ lockedAfterC.error_counter = 0 ∧
    syndrome (nextWindow lockedAfterC 1) = OFFSET_D ∧
    ((stepBit lockedAfterC 1).2 = [] ∧
     (stepBit lockedAfterC 1).1.error_counter = 1 ∧
     (stepBit lockedAfterC 1).1.last_block_id = 3 ∧
     (stepBit lockedAfterC 1).1.state = STATE_SYNCED) :=
  ⟨rfl, rfl, rfl, rfl, by decide,
   c1_D_after_C_not_dispatched lockedAfterC 1 rfl rfl rfl rfl (by decide)⟩

/-! ## PI candidate table behavior (claims C5, C6, C7) -/

/-- The decoder state after dispatching six A blocks with payloads
5, 5, 5, 7, 7, 5 through `process_block`. -/
def piSequenceRun : Decoder :=
  ([5, 5, 5, 7, 7, 5] : List Nat).foldl
    (fun t d => (process_block t 0 d).1) initDecoder

/-- C5 counterexample: after payload 5 is confirmed, two sightings of 7
enter the table; on the sixth dispatch the counter of 5 reaches 11 > 2 and
5 stays the confirmed PI, yet the table still holds the competing
candidate 7 — it is not reset to contain only the over-threshold value. -/
theorem c5_counterexample :
    dictGetD piSequenceRun.pi_code_counts 5 = 11 ∧
    piSequenceRun.pi_code = 5 ∧
    piSequenceRun.pi_code_counts = [(5, 11), (7, 2)] ∧
    (piSequenceRun.pi_code_counts.all (fun p => p.1 == 5)) = false := by
  decide

/-- C5 (amended): when a dispatched A payload's incremented counter
exceeds 2 AND the payload differs from the currently confirmed PI, it
becomes the confirmed PI and the table is reset to exactly [(payload,10)];
when the payload already equals the confirmed PI the table is left with
its other entries (only the counter increment happens). -/
theorem c5_amended_table_reset_on_change (s : Decoder) (d : Nat)
    (hne : s.pi_code ≠ d)
    (hcnt : dictGetD (piIncrement s.pi_code_counts d) d > 2) :
    (process_block s 0 d).1.pi_code_counts = [(d, 10)] ∧
    (process_block s 0 d).1.pi_code = d := by
  unfold process_block
  dsimp only
  rw [if_pos rfl, if_pos hcnt, if_pos hne]
  exact ⟨rfl, rfl⟩

/-- A decoder whose candidate table already holds two sightings of 9. -/
def twoSightingsOfNine : Decoder :=
  { initDecoder with pi_code_counts := [(9, 2)] }

/-- Witness for the amended C5 at payload 9 and state `twoSightingsOfNine`. -/
theorem c5_amended_witness :
    (twoSightingsOfNine.pi_code ≠ 9) ∧
    dictGetD (piIncrement twoSightingsOfNine.pi_code_counts 9) 9 > 2 ∧
    ((process_block twoSightingsOfNine 0 9).1.pi_code_counts = [(9, 10)] ∧
     (process_block twoSightingsOfNine 0 9).1.pi_code = 9) :=
  ⟨by decide, by decide,
   c5_amended_table_reset_on_change twoSightingsOfNine 9 (by decide) (by decide)⟩

/-- The decoder/events pair after dispatching A payload 0 three times. -/
def zeroPiRun : Decoder × List RdsEvent :=
  ([0, 0, 0] : List Nat).foldl
    (fun acc d =>
      ((process_block acc.1 0 d).1, acc.2 ++ (process_block acc.1 0 d).2))
    (initDecoder, [])

/-- C6 counterexample: the same PI value 0 arrives on 3 consecutive A
dispatches and its counter reaches 3 > 2, yet no PIConfirmed event is
emitted, because the freshly constructed decoder already holds
`pi_code = 0` and the event fires only on a change of `pi_code`. -/
theorem c6_counterexample :
    zeroPiRun.2 = [] ∧ dictGetD zeroPiRun.1.pi_code_counts 0 = 3 := by decide

/-- C6 (amended): a PIConfirmed event is emitted by an A dispatch iff the
payload's incremented candidate counter exceeds 2 and the payload differs
from the current `pi_code` (which starts at 0, so a broadcast PI of 0 is
never announced). -/
theorem c6_amended_pi_confirm_iff (s : Decoder) (d : Nat) :
    (process_block s 0 d).2 =
      (if 2 < dictGetD (piIncrement s.pi_code_counts d) d ∧ s.pi_code ≠ d
       then [RdsEvent.piConfirmed d] else []) := by
  unfold process_block
  dsimp only
  rw [if_pos rfl]
  split_ifs <;> simp_all

/-- A decoder holding group context from a previous group. -/
def staleGroupCtx : Decoder :=
  { initDecoder with group_type := some 3, group_B := some 123 }

/-- C7 counterexample: dispatching block A (payload 77) leaves the stored
group type 3 and raw block-B payload 123 of the previous group in place —
the Group Context is not cleared. -/
theorem c7_counterexample :
    (process_block staleGroupCtx 0 77).1.group_type = some 3 ∧
    (process_block staleGroupCtx 0 77).1.group_B = some 123 := by decide

/-- C7 (amended): dispatching block A leaves the stored group type and raw
block-B payload unchanged (only the PI candidate state and the stored PI
change), so a subsequent block D is interpreted with the most recently
stored block-B data, which may belong to a previous group. -/
theorem c7_amended_groupctx_preserved (s : Decoder) (d : Nat) :
    (process_block s 0 d).1.group_type = s.group_type ∧
    (process_block s 0 d).1.group_B = s.group_B ∧
    (process_block s 0 d).1.group_PI = some d := by
  unfold process_block
  dsimp only
  rw [if_pos rfl]
  split_ifs <;> exact ⟨rfl, rfl, rfl⟩

/-! ## Printable filtering of station-name characters (claim C9) -/

theorem process_block_D_ps (s : Decoder) (d b : Nat)
    (hty : s.group_type = some 0) (hB : s.group_B = some b) :
    (process_block s 4 d).1.ps_name =
      (if 32 ≤ d &&& 255 ∧ d &&& 255 ≤ 126
       then (if 32 ≤ (d >>> 8) &&& 255 ∧ (d >>> 8) &&& 255 ≤ 126
             then s.ps_name.set ((b &&& 3) * 2) ((d >>> 8) &&& 255)
             else s.ps_name).set ((b &&& 3) * 2 + 1) (d &&& 255)
       else (if 32 ≤ (d >>> 8) &&& 255 ∧ (d >>> 8) &&& 255 ≤ 126
             then s.ps_name.set ((b &&& 3) * 2) ((d >>> 8) &&& 255)
             else s.ps_name)) := by
  unfold process_block
  rw [if_neg (by decide : ¬ ((4:Int) = 0)), if_neg (by decide : ¬ ((4:Int) = 1)),
      if_pos (by decide : (4:Int) = 4), hty, hB]
  dsimp only [Option.getD]
  rw [if_pos rfl]
  split_ifs <;> rfl

/-- C9: dispatching a block D while the stored group type is 0 writes its
two payload bytes into station-name slots `(b &&& 3) * 2` and
`(b &&& 3) * 2 + 1` exactly when each byte is printable (32..126); a
non-printable byte leaves its slot's prior content in place, and every
other slot is untouched. -/
theorem c9_printable_filter (s : Decoder) (d b : Nat)
    (hty : s.group_type = some 0) (hB : s.group_B = some b)
    (hlen : s.ps_name.length = 8) :
    (∀ j, j ≠ (b &&& 3) * 2 → j ≠ (b &&& 3) * 2 + 1 →
      ((process_block s 4 d).1.ps_name)[j]? = s.ps_name[j]?) ∧
    ((process_block s 4 d).1.ps_name)[(b &&& 3) * 2]? =
      (if 32 ≤ (d >>> 8) &&& 255 ∧ (d >>> 8) &&& 255 ≤ 126
       then some ((d >>> 8) &&& 255) else s.ps_name[(b &&& 3) * 2]?) ∧
    ((process_block s 4 d).1.ps_name)[(b &&& 3) * 2 + 1]? =
      (if 32 ≤ d &&& 255 ∧ d &&& 255 ≤ 126
       then some (d &&& 255) else s.ps_name[(b &&& 3) * 2 + 1]?) := by
  have hps := process_block_D_ps s d b hty hB
  have hb3 : b &&& 3 ≤ 3 := Nat.and_le_right
  have hidx : (b &&& 3) * 2 < s.ps_name.length := by omega
  have hidx1 : (b &&& 3) * 2 + 1 < s.ps_name.length := by omega
  refine ⟨?_, ?_, ?_⟩
  · intro j hj1 hj2
    rw [hps]
    split_ifs <;>
      simp [List.getElem?_set_ne (Ne.symm hj1), List.getElem?_set_ne (Ne.symm hj2)]
  · rw [hps]
    split_ifs with h2 h1 h1
    · rw [List.getElem?_set_ne (by omega), List.getElem?_set_self hidx]
    · rw [List.getElem?_set_ne (by omega)]
    · rw [List.getElem?_set_self hidx]
    · rfl
  · rw [hps]
    split_ifs with h2 h1 h1
    · rw [List.getElem?_set_self (by rw [List.length_set]; exact hidx1)]
    · rw [List.getElem?_set_self hidx1]
    · rw [List.getElem?_set_ne (by omega)]
    · rfl

/-- A decoder ready to receive a 0A block D addressing segment 1. -/
def segmentOneCtx : Decoder :=
  { initDecoder with group_type := some 0, group_B := some 1 }

/-- Witness for C9: byte 10 (newline) is filtered out of slot 2 while
byte 65 ('A') lands in slot 3; all other slots keep their blanks. -/
theorem c9_printable_witness :
    segmentOneCtx.group_type = some 0 ∧ segmentOneCtx.group_B = some 1 ∧
    segmentOneCtx.ps_name.length = 8 ∧
    ((∀ j, j ≠ (1 &&& 3) * 2 → j ≠ (1 &&& 3) * 2 + 1 →
      ((process_block segmentOneCtx 4 2625).1.ps_name)[j]? =
        segmentOneCtx.ps_name[j]?) ∧
    ((process_block segmentOneCtx 4 2625).1.ps_name)[(1 &&& 3) * 2]? =
      (if 32 ≤ (2625 >>> 8) &&& 255 ∧ (2625 >>> 8) &&& 255 ≤ 126
       then some ((2625 >>> 8) &&& 255)
       else segmentOneCtx.ps_name[(1 &&& 3) * 2]?) ∧
    ((process_block segmentOneCtx 4 2625).1.ps_name)[(1 &&& 3) * 2 + 1]? =
      (if 32 ≤ 2625 &&& 255 ∧ 2625 &&& 255 ≤ 126
       then some (2625 &&& 255)
       else segmentOneCtx.ps_name[(1 &&& 3) * 2 + 1]?)) :=
  ⟨rfl, rfl, rfl,
   c9_printable_filter segmentOneCtx 2625 1 rfl rfl rfl⟩

/-! ## Evaluation of one step in each machine state -/

theorem stepBit_search (s : Decoder) (b : Nat) (h : s.state = STATE_SEARCH) :
    stepBit s b =
      (if syndrome (nextWindow s b) = OFFSET_A then
        process_block
          { s with state := STATE_PRESYNC_B, presync_bit_count := 0,
                   bit_buffer := nextWindow s b, last_bit := b &&& 1 }
          0 (nextWindow s b >>> 10)
       else
        ({ s with bit_buffer := nextWindow s b, last_bit := b &&& 1 }, [])) := by
  obtain ⟨st, pc, bb, lbi, gp, gt, gb, ps, pic, picc, lb, bc, ec⟩ := s
  simp only [STATE_SEARCH] at h
  subst h
  rfl

theorem stepBit_presyncB (s : Decoder) (b : Nat)
    (h : s.state = STATE_PRESYNC_B) :
    stepBit s b =
      (if s.presync_bit_count + 1 = 26 then
        (if syndrome (nextWindow s b) = OFFSET_B then
          process_block
            { s with state := STATE_PRESYNC_C, last_block_id := 1,
                     presync_bit_count := 0,
                     bit_buffer := nextWindow s b, last_bit := b &&& 1 }
            1 (nextWindow s b >>> 10)
         else
          ({ s with state := STATE_SEARCH,
                    presync_bit_count := s.presync_bit_count + 1,
                    bit_buffer := nextWindow s b, last_bit := b &&& 1 }, []))
       else
        ({ s with presync_bit_count := s.presync_bit_count + 1,
                  bit_buffer := nextWindow s b, last_bit := b &&& 1 }, [])) := by
  obtain ⟨st, pc, bb, lbi, gp, gt, gb, ps, pic, picc, lb, bc, ec⟩ := s
  simp only [STATE_PRESYNC_B] at h
  subst h
  rfl

theorem stepBit_presyncC (s : Decoder) (b : Nat)
    (h : s.state = STATE_PRESYNC_C) :
    stepBit s b =
      (if s.presync_bit_count + 1 = 26 then
        (if syndrome (nextWindow s b) = OFFSET_C ∨
            syndrome (nextWindow s b) = OFFSET_Cp then
          process_block
            { s with state := STATE_SYNCED, last_block_id := 2,
                     error_counter := 0, presync_bit_count := 0,
                     bit_buffer := nextWindow s b, last_bit := b &&& 1 }
            2 (nextWindow s b >>> 10)
         else
          ({ s with state := STATE_SEARCH,
                    presync_bit_count := s.presync_bit_count + 1,
                    bit_buffer := nextWindow s b, last_bit := b &&& 1 }, []))
       else
        ({ s with presync_bit_count := s.presync_bit_count + 1,
                  bit_buffer := nextWindow s b, last_bit := b &&& 1 }, [])) := by
  obtain ⟨st, pc, bb, lbi, gp, gt, gb, ps, pic, picc, lb, bc, ec⟩ := s
  simp only [STATE_PRESYNC_C] at h
  subst h
  rfl

theorem stepBit_synced (s : Decoder) (b : Nat) (h : s.state = STATE_SYNCED) :
    stepBit s b =
      (if s.presync_bit_count + 1 = 26 then
        (if validFor s.last_block_id (syndrome (nextWindow s b)) then
          process_block
            { s with presync_bit_count := 0,
                     bit_buffer := nextWindow s b, last_bit := b &&& 1,
                     error_counter := 0,
                     last_block_id :=
                       if offsetFound (syndrome (nextWindow s b)) = 3 then 2
                       else offsetFound (syndrome (nextWindow s b)) }
            (offsetFound (syndrome (nextWindow s b))) (nextWindow s b >>> 10)
         else if s.error_counter + 1 ≥ MAX_ERRORS then
          ({ s with state := STATE_SEARCH, presync_bit_count := 0,
                    bit_buffer := nextWindow s b, last_bit := b &&& 1,
                    error_counter := s.error_counter + 1,
                    last_block_id := (s.last_block_id + 1) % 4,
                    ps_name := List.replicate 8 32 }, [])
         else
          ({ s with presync_bit_count := 0,
                    bit_buffer := nextWindow s b, last_bit := b &&& 1,
                    error_counter := s.error_counter + 1,
                    last_block_id := (s.last_block_id + 1) % 4 }, []))
       else
        ({ s with presync_bit_count := s.presync_bit_count + 1,
                  bit_buffer := nextWindow s b, last_bit := b &&& 1 }, [])) := by
  obtain ⟨st, pc, bb, lbi, gp, gt, gb, ps, pic, picc, lb, bc, ec⟩ := s
  simp only [STATE_SYNCED] at h
  subst h
  rfl

theorem stepBit_other (s : Decoder) (b : Nat) (h0 : s.state ≠ STATE_SEARCH)
    (h1 : s.state ≠ STATE_PRESYNC_B) (h2 : s.state ≠ STATE_PRESYNC_C)
    (h3 : s.state ≠ STATE_SYNCED) :
    stepBit s b =
      ({ s with bit_buffer := nextWindow s b, last_bit := b &&& 1 }, []) := by
  obtain ⟨st, pc, bb, lbi, gp, gt, gb, ps, pic, picc, lb, bc, ec⟩ := s
  simp only [STATE_SEARCH, STATE_PRESYNC_B, STATE_PRESYNC_C, STATE_SYNCED]
    at h0 h1 h2 h3
  simp only [stepBit, nextWindow, STATE_SEARCH, STATE_PRESYNC_B,
             STATE_PRESYNC_C, STATE_SYNCED]
  rw [if_neg h0, if_neg h1, if_neg h2, if_neg h3]

/-! ## Acquisition discipline (claim C4) -/

theorem runBits_presyncB_nocheck (bs : List Nat) : ∀ (s : Decoder),
    s.state = STATE_PRESYNC_B → s.presync_bit_count + bs.length ≤ 25 →
    runBits s bs =
      ({ s with bit_buffer := (bufAfter bs s.bit_buffer s.last_bit).1,
                last_bit := (bufAfter bs s.bit_buffer s.last_bit).2,
                presync_bit_count := s.presync_bit_count + bs.length }, []) := by
  induction bs with
  | nil => intro s h1 h2; rfl
  | cons b bs ih =>
    intro s h1 h2
    rw [runBits_cons]
    have hstep := stepBit_presyncB s b h1
    rw [if_neg (by simp only [List.length_cons] at h2; omega :
          ¬ (s.presync_bit_count + 1 = 26))] at hstep
    rw [hstep]
    have ih2 := ih
      { s with presync_bit_count := s.presync_bit_count + 1,
               bit_buffer := nextWindow s b, last_bit := b &&& 1 }
      h1 (by simp only [List.length_cons] at h2; dsimp; omega)
    rw [ih2]
    simp only [List.append_nil, List.length_cons, bufAfter, nextWindow]
    rw [Prod.mk.injEq, Decoder.mk.injEq]
    refine ⟨⟨rfl, by omega, rfl, rfl, rfl, rfl, rfl, rfl, rfl, rfl, rfl, rfl, rfl⟩, rfl⟩

theorem runBits_presyncC_nocheck (bs : List Nat) : ∀ (s : Decoder),
    s.state = STATE_PRESYNC_C → s.presync_bit_count + bs.length ≤ 25 →
    runBits s bs =
      ({ s with bit_buffer := (bufAfter bs s.bit_buffer s.last_bit).1,
                last_bit := (bufAfter bs s.bit_buffer s.last_bit).2,
                presync_bit_count := s.presync_bit_count + bs.length }, []) := by
  induction bs with
  | nil => intro s h1 h2; rfl
  | cons b bs ih =>
    intro s h1 h2
    rw [runBits_cons]
    have hstep := stepBit_presyncC s b h1
    rw [if_neg (by simp only [List.length_cons] at h2; omega :
          ¬ (s.presync_bit_count + 1 = 26))] at hstep
    rw [hstep]
    have ih2 := ih
      { s with presync_bit_count := s.presync_bit_count + 1,
               bit_buffer := nextWindow s b, last_bit := b &&& 1 }
      h1 (by simp only [List.length_cons] at h2; dsimp; omega)
    rw [ih2]
    simp only [List.append_nil, List.length_cons, bufAfter, nextWindow]
    rw [Prod.mk.injEq, Decoder.mk.injEq]
    refine ⟨⟨rfl, by omega, rfl, rfl, rfl, rfl, rfl, rfl, rfl, rfl, rfl, rfl, rfl⟩, rfl⟩

theorem stepBit_search_hit (s : Decoder) (b : Nat) (h : s.state = STATE_SEARCH)
    (hA : syndrome (nextWindow s b) = OFFSET_A) :
    (stepBit s b).1.state = STATE_PRESYNC_B ∧
    (stepBit s b).1.presync_bit_count = 0 ∧
    (stepBit s b).1.bit_buffer = nextWindow s b ∧
    (stepBit s b).1.last_bit = b &&& 1 := by
  rw [stepBit_search s b h, if_pos hA]
  exact ⟨(process_block_fields _ _ _).1, (process_block_fields _ _ _).2.2.2.1,
         (process_block_fields _ _ _).2.1, (process_block_fields _ _ _).2.2.1⟩

theorem stepBit_search_miss (s : Decoder) (b : Nat) (h : s.state = STATE_SEARCH)
    (hA : syndrome (nextWindow s b) ≠ OFFSET_A) :
    (stepBit s b).1.state = STATE_SEARCH ∧
    (stepBit s b).1.bit_buffer = nextWindow s b ∧
    (stepBit s b).1.last_bit = b &&& 1 := by
  rw [stepBit_search s b h, if_neg hA]
  exact ⟨h, rfl, rfl⟩

theorem runBits_presyncB_check (c : List Nat) (s : Decoder)
    (h1 : s.state = STATE_PRESYNC_B) (h2 : s.presync_bit_count = 0)
    (hlen : c.length = 26) :
    (syndrome (bufAfter c s.bit_buffer s.last_bit).1 = OFFSET_B →
      (runBits s c).1.state = STATE_PRESYNC_C ∧
      (runBits s c).1.presync_bit_count = 0 ∧
      (runBits s c).1.bit_buffer = (bufAfter c s.bit_buffer s.last_bit).1 ∧
      (runBits s c).1.last_bit = (bufAfter c s.bit_buffer s.last_bit).2) ∧
    (syndrome (bufAfter c s.bit_buffer s.last_bit).1 ≠ OFFSET_B →
      (runBits s c).1.state = STATE_SEARCH ∧
      (runBits s c).1.bit_buffer = (bufAfter c s.bit_buffer s.last_bit).1 ∧
      (runBits s c).1.last_bit = (bufAfter c s.bit_buffer s.last_bit).2) := by
  have hne : c ≠ [] := by
    intro h
    rw [h] at hlen
    simp at hlen
  obtain ⟨bs, b, rfl⟩ : ∃ bs b, c = bs ++ [b] :=
    ⟨c.dropLast, c.getLast hne, (List.dropLast_append_getLast hne).symm⟩
  have hbs : bs.length = 25 := by
    simp only [List.length_append, List.length_cons, List.length_nil] at hlen
    omega
  rw [bufAfter_append, runBits_append,
      runBits_presyncB_nocheck bs s h1 (by omega)]
  dsimp only
  rw [runBits_cons, runBits_nil]
  have hstep := stepBit_presyncB
    { s with bit_buffer := (bufAfter bs s.bit_buffer s.last_bit).1,
             last_bit := (bufAfter bs s.bit_buffer s.last_bit).2,
             presync_bit_count := s.presync_bit_count + bs.length }
    b h1
  rw [if_pos (show s.presync_bit_count + bs.length + 1 = 26 by omega)] at hstep
  rw [show nextWindow
      { s with bit_buffer := (bufAfter bs s.bit_buffer s.last_bit).1,
               last_bit := (bufAfter bs s.bit_buffer s.last_bit).2,
               presync_bit_count := s.presync_bit_count + bs.length } b
      = (bufAfter [b] (bufAfter bs s.bit_buffer s.last_bit).1
          (bufAfter bs s.bit_buffer s.last_bit).2).1 from rfl] at hstep
  constructor
  · intro hB
    rw [if_pos hB] at hstep
    rw [hstep]
    dsimp only
    exact ⟨(process_block_fields _ _ _).1, (process_block_fields _ _ _).2.2.2.1,
           (process_block_fields _ _ _).2.1, (process_block_fields _ _ _).2.2.1⟩
  · intro hB
    rw [if_neg hB] at hstep
    rw [hstep]
    exact ⟨rfl, rfl, rfl⟩

theorem runBits_presyncC_fail (c : List Nat) (s : Decoder)
    (h1 : s.state = STATE_PRESYNC_C) (h2 : s.presync_bit_count = 0)
    (hlen : c.length = 26)
    (hC : ¬ (syndrome (bufAfter c s.bit_buffer s.last_bit).1 = OFFSET_C ∨
             syndrome (bufAfter c s.bit_buffer s.last_bit).1 = OFFSET_Cp)) :
    (runBits s c).1.state = STATE_SEARCH ∧
    (runBits s c).1.bit_buffer = (bufAfter c s.bit_buffer s.last_bit).1 ∧
    (runBits s c).1.last_bit = (bufAfter c s.bit_buffer s.last_bit).2 := by
  have hne : c ≠ [] := by
    intro h
    rw [h] at hlen
    simp at hlen
  obtain ⟨bs, b, rfl⟩ : ∃ bs b, c = bs ++ [b] :=
    ⟨c.dropLast, c.getLast hne, (List.dropLast_append_getLast hne).symm⟩
  have hbs : bs.length = 25 := by
    simp only [List.length_append, List.length_cons, List.length_nil] at hlen
    omega
  rw [bufAfter_append] at hC
  rw [bufAfter_append, runBits_append,
      runBits_presyncC_nocheck bs s h1 (by omega)]
  dsimp only
  rw [runBits_cons, runBits_nil]
  have hstep := stepBit_presyncC
    { s with bit_buffer := (bufAfter bs s.bit_buffer s.last_bit).1,
             last_bit := (bufAfter bs s.bit_buffer s.last_bit).2,
             presync_bit_count := s.presync_bit_count + bs.length }
    b h1
  rw [if_pos (show s.presync_bit_count + bs.length + 1 = 26 by omega)] at hstep
  rw [show nextWindow
      { s with bit_buffer := (bufAfter bs s.bit_buffer s.last_bit).1,
               last_bit := (bufAfter bs s.bit_buffer s.last_bit).2,
               presync_bit_count := s.presync_bit_count + bs.length } b
      = (bufAfter [b] (bufAfter bs s.bit_buffer s.last_bit).1
          (bufAfter bs s.bit_buffer s.last_bit).2).1 from rfl] at hstep
  rw [if_neg hC] at hstep
  rw [hstep]
  exact ⟨rfl, rfl, rfl⟩

theorem take_append_len (us : List Nat) :
    ∀ (vs : List Nat) (m : Nat),
      (us ++ vs).take (us.length + m) = us ++ vs.take m := by
  induction us with
  | nil => intro vs m; simp
  | cons a us ih =>
    intro vs m
    simp only [List.cons_append, List.length_cons]
    rw [show us.length + 1 + m = us.length + m + 1 by omega,
        List.take_succ_cons, ih]

theorem take_add_split : ∀ (m : Nat) (l : List Nat) (k : Nat),
    l.take (m + k) = l.take m ++ (l.drop m).take k := by
  intro m
  induction m with
  | zero => intro l k; simp
  | succ m ih =>
    intro l k
    cases l with
    | nil => simp
    | cons a l =>
      rw [show m + 1 + k = m + k + 1 by omega, List.take_succ_cons,
          List.take_succ_cons, List.drop_succ_cons, ih, List.cons_append]

/-- The input contains the full acquisition pattern for a given start
window: some prefix of length `k ≥ 1` ends in a window with A's syndrome,
the prefix exactly 26 symbols longer ends in a window with B's syndrome,
and the prefix exactly 52 symbols longer ends in a window with C's or C''s
syndrome — three windows spaced exactly 26 bits apart. -/
def lockPattern (s : Decoder) (bs : List Nat) : Prop :=
  ∃ k, 1 ≤ k ∧ k + 52 ≤ bs.length ∧
    syndrome (bufAfter (bs.take k) s.bit_buffer s.last_bit).1 = OFFSET_A ∧
    syndrome (bufAfter (bs.take (k + 26)) s.bit_buffer s.last_bit).1 = OFFSET_B ∧
    (syndrome (bufAfter (bs.take (k + 52)) s.bit_buffer s.last_bit).1 = OFFSET_C ∨
     syndrome (bufAfter (bs.take (k + 52)) s.bit_buffer s.last_bit).1 = OFFSET_Cp)

theorem lockPattern_shift (s s2 : Decoder) (us vs : List Nat)
    (hbuf : s2.bit_buffer = (bufAfter us s.bit_buffer s.last_bit).1)
    (hlb : s2.last_bit = (bufAfter us s.bit_buffer s.last_bit).2)
    (h : lockPattern s2 vs) : lockPattern s (us ++ vs) := by
  obtain ⟨k, hk1, hk2, hA, hB, hC⟩ := h
  have key : ∀ m, bufAfter ((us ++ vs).take (us.length + m)) s.bit_buffer s.last_bit
      = bufAfter (vs.take m) s2.bit_buffer s2.last_bit := by
    intro m
    rw [take_append_len, bufAfter_append, ← hbuf, ← hlb]
  refine ⟨us.length + k, by omega, ?_, ?_, ?_, ?_⟩
  · simp only [List.length_append]
    omega
  · rw [key k]
    exact hA
  · rw [show us.length + k + 26 = us.length + (k + 26) by omega, key (k + 26)]
    exact hB
  · rw [show us.length + k + 52 = us.length + (k + 52) by omega, key (k + 52)]
    exact hC

theorem lock_requires_abc : ∀ (n : Nat) (bs : List Nat), bs.length = n →
    ∀ (s : Decoder),
    (s.state = STATE_SEARCH → (runBits s bs).1.state = STATE_SYNCED →
      lockPattern s bs) ∧
    (s.state = STATE_PRESYNC_B → s.presync_bit_count = 0 →
      (runBits s bs).1.state = STATE_SYNCED →
      (52 ≤ bs.length ∧
        syndrome (bufAfter (bs.take 26) s.bit_buffer s.last_bit).1 = OFFSET_B ∧
        (syndrome (bufAfter (bs.take 52) s.bit_buffer s.last_bit).1 = OFFSET_C ∨
         syndrome (bufAfter (bs.take 52) s.bit_buffer s.last_bit).1 = OFFSET_Cp)) ∨
      lockPattern s bs) ∧
    (s.state = STATE_PRESYNC_C → s.presync_bit_count = 0 →
      (runBits s bs).1.state = STATE_SYNCED →
      (26 ≤ bs.length ∧
        (syndrome (bufAfter (bs.take 26) s.bit_buffer s.last_bit).1 = OFFSET_C ∨
         syndrome (bufAfter (bs.take 26) s.bit_buffer s.last_bit).1 = OFFSET_Cp)) ∨
      lockPattern s bs) := by
  intro n
  induction n using Nat.strong_induction_on with
  | _ n IH =>
    intro bs hn s
    refine ⟨?_, ?_, ?_⟩
    · intro h1 hend
      cases bs with
      | nil => exact absurd (h1.symm.trans hend) (by decide)
      | cons b rest =>
        rw [runBits_cons] at hend
        simp only [List.length_cons] at hn
        by_cases hA : syndrome (nextWindow s b) = OFFSET_A
        · obtain ⟨hs1, hc1, hb1, hl1⟩ := stepBit_search_hit s b h1 hA
          have h2 := (IH rest.length (by omega) rest rfl (stepBit s b).1).2.1
            hs1 hc1 hend
          cases h2 with
          | inl hgood =>
            obtain ⟨hlen52, hB, hC⟩ := hgood
            rw [hb1, hl1] at hB hC
            exact ⟨1, le_refl 1, by simp only [List.length_cons]; omega,
                   hA, hB, hC⟩
          | inr hlp =>
            exact lockPattern_shift s (stepBit s b).1 [b] rest
              (by rw [hb1]; rfl) (by rw [hl1]; rfl) hlp
        · obtain ⟨hs1, hb1, hl1⟩ := stepBit_search_miss s b h1 hA
          have hlp := (IH rest.length (by omega) rest rfl (stepBit s b).1).1
            hs1 hend
          exact lockPattern_shift s (stepBit s b).1 [b] rest
            (by rw [hb1]; rfl) (by rw [hl1]; rfl) hlp
    · intro h1 h2 hend
      by_cases hsmall : bs.length ≤ 25
      · rw [runBits_presyncB_nocheck bs s h1 (by omega)] at hend
        exact absurd (h1.symm.trans hend) (by decide)
      · push_neg at hsmall
        have hsplit : bs.take 26 ++ bs.drop 26 = bs := List.take_append_drop 26 bs
        have hc26 : (bs.take 26).length = 26 := by
          rw [List.length_take]
          omega
        have hrun : (runBits (runBits s (bs.take 26)).1 (bs.drop 26)).1.state
            = STATE_SYNCED := by
          rw [← hsplit, runBits_append] at hend
          exact hend
        have hch := runBits_presyncB_check (bs.take 26) s h1 h2 hc26
        by_cases hB : syndrome (bufAfter (bs.take 26) s.bit_buffer s.last_bit).1
            = OFFSET_B
        · obtain ⟨hs2, hc2, hb2, hl2⟩ := hch.1 hB
          have h3 := (IH (bs.drop 26).length
              (by simp only [List.length_drop]; omega)
              (bs.drop 26) rfl (runBits s (bs.take 26)).1).2.2 hs2 hc2 hrun
          cases h3 with
          | inl hgood =>
            obtain ⟨hlen26, hC⟩ := hgood
            left
            refine ⟨?_, hB, ?_⟩
            · simp only [List.length_drop] at hlen26
              omega
            · rw [hb2, hl2] at hC
              rw [show (52 : Nat) = 26 + 26 by omega, take_add_split 26 bs 26,
                  bufAfter_append]
              exact hC
          | inr hlp =>
            right
            rw [← hsplit]
            exact lockPattern_shift s (runBits s (bs.take 26)).1
              (bs.take 26) (bs.drop 26) hb2 hl2 hlp
        · obtain ⟨hs2, hb2, hl2⟩ := hch.2 hB
          have hlp := (IH (bs.drop 26).length
              (by simp only [List.length_drop]; omega)
              (bs.drop 26) rfl (runBits s (bs.take 26)).1).1 hs2 hrun
          right
          rw [← hsplit]
          exact lockPattern_shift s (runBits s (bs.take 26)).1
            (bs.take 26) (bs.drop 26) hb2 hl2 hlp
    · intro h1 h2 hend
      by_cases hsmall : bs.length ≤ 25
      · rw [runBits_presyncC_nocheck bs s h1 (by omega)] at hend
        exact absurd (h1.symm.trans hend) (by decide)
      · push_neg at hsmall
        by_cases hC : syndrome (bufAfter (bs.take 26) s.bit_buffer s.last_bit).1
              = OFFSET_C ∨
            syndrome (bufAfter (bs.take 26) s.bit_buffer s.last_bit).1 = OFFSET_Cp
        · exact Or.inl ⟨by omega, hC⟩
        · have hsplit : bs.take 26 ++ bs.drop 26 = bs := List.take_append_drop 26 bs
          have hc26 : (bs.take 26).length = 26 := by
            rw [List.length_take]
            omega
          obtain ⟨hs2, hb2, hl2⟩ := runBits_presyncC_fail (bs.take 26) s h1 h2 hc26 hC
          have hrun : (runBits (runBits s (bs.take 26)).1 (bs.drop 26)).1.state
              = STATE_SYNCED := by
            rw [← hsplit, runBits_append] at hend
            exact hend
          have hlp := (IH (bs.drop 26).length
              (by simp only [List.length_drop]; omega)
              (bs.drop 26) rfl (runBits s (bs.take 26)).1).1 hs2 hrun
          right
          rw [← hsplit]
          exact lockPattern_shift s (runBits s (bs.take 26)).1
            (bs.take 26) (bs.drop 26) hb2 hl2 hlp

/-- C4: LOCKED is reachable from SEARCHING only by observing windows with
A's, B's and C's (or C''s) syndromes at exactly 26-bit spacing: any run
from SEARCH that ends SYNCED contains the full pattern (last conjunct);
per step, SEARCH advances to AWAITING_B only on A's syndrome, AWAITING_B
to AWAITING_C only at its 26th bit on B's syndrome, SYNCED is entered only
from AWAITING_C at its 26th bit on C's or C''s syndrome, and a wrong
syndrome at the second or third check silently resets to SEARCHING with no
event and the error counter untouched. -/
theorem c4_lock_acquisition (s : Decoder) (bs : List Nat) (b : Nat) :
    (s.state = STATE_SEARCH →
      ((stepBit s b).1.state = STATE_PRESYNC_B ↔
        syndrome (nextWindow s b) = OFFSET_A)) ∧
    (s.state = STATE_PRESYNC_B →
      ((stepBit s b).1.state = STATE_PRESYNC_C ↔
        (s.presync_bit_count + 1 = 26 ∧
         syndrome (nextWindow s b) = OFFSET_B))) ∧
    (s.state = STATE_PRESYNC_C →
      ((stepBit s b).1.state = STATE_SYNCED ↔
        (s.presync_bit_count + 1 = 26 ∧
         (syndrome (nextWindow s b) = OFFSET_C ∨
          syndrome (nextWindow s b) = OFFSET_Cp)))) ∧
    (s.state ≠ STATE_SYNCED → (stepBit s b).1.state = STATE_SYNCED →
      s.state = STATE_PRESYNC_C) ∧
    (s.state = STATE_PRESYNC_B → s.presync_bit_count + 1 = 26 →
      syndrome (nextWindow s b) ≠ OFFSET_B →
      (stepBit s b).1.state = STATE_SEARCH ∧ (stepBit s b).2 = [] ∧
      (stepBit s b).1.error_counter = s.error_counter) ∧
    (s.state = STATE_PRESYNC_C → s.presync_bit_count + 1 = 26 →
      ¬ (syndrome (nextWindow s b) = OFFSET_C ∨
         syndrome (nextWindow s b) = OFFSET_Cp) →
      (stepBit s b).1.state = STATE_SEARCH ∧ (stepBit s b).2 = [] ∧
      (stepBit s b).1.error_counter = s.error_counter) ∧
    (s.state = STATE_SEARCH → (runBits s bs).1.state = STATE_SYNCED →
      lockPattern s bs) := by
  refine ⟨?_, ?_, ?_, ?_, ?_, ?_, ?_⟩
  · intro h
    rw [stepBit_search s b h]
    split_ifs with hA
    · rw [(process_block_fields _ _ _).1]
      simp [hA, STATE_PRESYNC_B]
    · simp [h, hA, STATE_SEARCH, STATE_PRESYNC_B]
  · intro h
    rw [stepBit_presyncB s b h]
    split_ifs with h26 hB
    · rw [(process_block_fields _ _ _).1]
      simp [h26, hB, STATE_PRESYNC_C]
    · simp [h26, hB, STATE_SEARCH, STATE_PRESYNC_C]
    · simp [h26, h, STATE_PRESYNC_B, STATE_PRESYNC_C]
  · intro h
    rw [stepBit_presyncC s b h]
    split_ifs with h26 hC
    · rw [(process_block_fields _ _ _).1]
      simp [h26, hC, STATE_SYNCED]
    · simp [h26, hC, STATE_SEARCH, STATE_SYNCED]
    · simp [h26, h, STATE_PRESYNC_C, STATE_SYNCED]
  · intro hne h3
    by_cases h0 : s.state = STATE_SEARCH
    · rw [stepBit_search s b h0] at h3
      revert h3
      split_ifs with hA
      · rw [(process_block_fields _ _ _).1]
        simp [STATE_PRESYNC_B, STATE_SYNCED]
      · simp [h0, STATE_SEARCH, STATE_SYNCED]
    · by_cases h1 : s.state = STATE_PRESYNC_B
      · rw [stepBit_presyncB s b h1] at h3
        revert h3
        split_ifs with h26 hB
        · rw [(process_block_fields _ _ _).1]
          simp [STATE_PRESYNC_C, STATE_SYNCED]
        · simp [STATE_SEARCH, STATE_SYNCED]
        · simp [h1, STATE_PRESYNC_B, STATE_SYNCED]
      · by_cases h2 : s.state = STATE_PRESYNC_C
        · exact h2
        · rw [stepBit_other s b h0 h1 h2 hne] at h3
          exact absurd h3 hne
  · intro h h26 hB
    rw [stepBit_presyncB s b h, if_pos h26, if_neg hB]
    exact ⟨rfl, rfl, rfl⟩
  · intro h h26 hC
    rw [stepBit_presyncC s b h, if_pos h26, if_neg hC]
    exact ⟨rfl, rfl, rfl⟩
  · intro h1 hend
    exact (lock_requires_abc bs.length bs rfl s).1 h1 hend

/-- A concrete 78-symbol stream, already differentially pre-encoded so
that the decoded windows after 26, 52 and 78 symbols are 671, 415 and 803:
windows carrying A's, B's and C's syndromes at exact 26-bit spacing. -/
def lockStream : List Nat :=
  [0, 0, 0, 0, 0, 0, 0, 0, 0, 0, 0, 0, 0, 0, 0, 0, 1, 1, 0, 0, 0, 1, 0, 1,
   0, 1, 1, 1, 1, 1, 1, 1, 1, 1, 1, 1, 1, 1, 1, 1, 1, 1, 1, 0, 1, 1, 1, 0,
   1, 0, 1, 0, 0, 0, 0, 0, 0, 0, 0, 0, 0, 0, 0, 0, 0, 0, 0, 0, 1, 0, 0, 0,
   1, 1, 1, 1, 0, 1]

set_option maxRecDepth 100000 in
/-- Witness for C4: the fresh decoder locks on `lockStream`, and the
theorem's reachability conjunct yields the A→B→C pattern in the stream. -/
theorem c4_lock_witness :
    initDecoder.state = STATE_SEARCH ∧
    (runBits initDecoder lockStream).1.state = STATE_SYNCED ∧
    lockPattern initDecoder lockStream :=
  ⟨rfl, by decide,
   (c4_lock_acquisition initDecoder lockStream 0).2.2.2.2.2.2 rfl (by decide)⟩

/-! ## Bounded error tolerance while SYNCED (claim C3) -/

/-- A 26-symbol chunk "mismatches" when the syndrome of the window reached
at its end is not valid for the decoder's current cycle position. -/
def chunkMismatch (s : Decoder) (c : List Nat) : Bool :=
  !(validFor s.last_block_id
      (syndrome (bufAfter c s.bit_buffer s.last_bit).1))

/-- Every chunk of the list mismatches at its own check, each evaluated in
the state reached after the previous chunks. -/
def allChunksMismatch : Decoder → List (List Nat) → Bool
  | _, [] => true
  | s, c :: cs => chunkMismatch s c && allChunksMismatch (runBits s c).1 cs

/-- Iterate the symbol loop over a list of chunks, keeping the state. -/
def runChunks (s : Decoder) (cs : List (List Nat)) : Decoder :=
  cs.foldl (fun t c => (runBits t c).1) s

theorem runBits_synced_nocheck (bs : List Nat) : ∀ (s : Decoder),
    s.state = STATE_SYNCED → s.presync_bit_count + bs.length ≤ 25 →
    runBits s bs =
      ({ s with bit_buffer := (bufAfter bs s.bit_buffer s.last_bit).1,
                last_bit := (bufAfter bs s.bit_buffer s.last_bit).2,
                presync_bit_count := s.presync_bit_count + bs.length }, []) := by
  induction bs with
  | nil => intro s h1 h2; rfl
  | cons b bs ih =>
    intro s h1 h2
    rw [runBits_cons]
    have hstep := stepBit_synced s b h1
    rw [if_neg (by simp only [List.length_cons] at h2; omega :
          ¬ (s.presync_bit_count + 1 = 26))] at hstep
    rw [hstep]
    have ih2 := ih
      { s with presync_bit_count := s.presync_bit_count + 1,
               bit_buffer := nextWindow s b, last_bit := b &&& 1 }
      h1 (by simp only [List.length_cons] at h2; dsimp; omega)
    rw [ih2]
    simp only [List.append_nil, List.length_cons, bufAfter, nextWindow]
    rw [Prod.mk.injEq, Decoder.mk.injEq]
    refine ⟨⟨rfl, by omega, rfl, rfl, rfl, rfl, rfl, rfl, rfl, rfl, rfl, rfl, rfl⟩, rfl⟩

theorem runBits_synced_chunk (c : List Nat) (s : Decoder)
    (h1 : s.state = STATE_SYNCED) (h2 : s.presync_bit_count = 0)
    (hlen : c.length = 26) (hm : chunkMismatch s c = true) :
    runBits s c =
      ({ s with bit_buffer := (bufAfter c s.bit_buffer s.last_bit).1,
                last_bit := (bufAfter c s.bit_buffer s.last_bit).2,
                presync_bit_count := 0,
                error_counter := s.error_counter + 1,
                last_block_id := (s.last_block_id + 1) % 4,
                state := if s.error_counter + 1 ≥ MAX_ERRORS then STATE_SEARCH
                         else STATE_SYNCED,
                ps_name := if s.error_counter + 1 ≥ MAX_ERRORS then
                             List.replicate 8 32 else s.ps_name }, []) := by
  have hne : c ≠ [] := by
    intro h
    rw [h] at hlen
    simp at hlen
  obtain ⟨bs, b, rfl⟩ : ∃ bs b, c = bs ++ [b] :=
    ⟨c.dropLast, c.getLast hne, (List.dropLast_append_getLast hne).symm⟩
  have hbs : bs.length = 25 := by
    simp only [List.length_append, List.length_cons, List.length_nil] at hlen
    omega
  have hm' : validFor s.last_block_id
      (syndrome (bufAfter (bs ++ [b]) s.bit_buffer s.last_bit).1) = false := by
    simpa [chunkMismatch] using hm
  rw [bufAfter_append] at hm'
  rw [bufAfter_append, runBits_append,
      runBits_synced_nocheck bs s h1 (by omega)]
  dsimp only
  rw [runBits_cons]
  have hstep := stepBit_synced
    { s with bit_buffer := (bufAfter bs s.bit_buffer s.last_bit).1,
             last_bit := (bufAfter bs s.bit_buffer s.last_bit).2,
             presync_bit_count := s.presync_bit_count + bs.length }
    b h1
  rw [if_pos (show s.presync_bit_count + bs.length + 1 = 26 by omega)] at hstep
  rw [if_neg (show ¬ (validFor s.last_block_id
      (syndrome (nextWindow
        { s with bit_buffer := (bufAfter bs s.bit_buffer s.last_bit).1,
                 last_bit := (bufAfter bs s.bit_buffer s.last_bit).2,
                 presync_bit_count := s.presync_bit_count + bs.length }
        b)) = true) from by
    rw [show nextWindow
        { s with bit_buffer := (bufAfter bs s.bit_buffer s.last_bit).1,
                 last_bit := (bufAfter bs s.bit_buffer s.last_bit).2,
                 presync_bit_count := s.presync_bit_count + bs.length }
        b = (bufAfter [b] (bufAfter bs s.bit_buffer s.last_bit).1
              (bufAfter bs s.bit_buffer s.last_bit).2).1 from rfl]
    rw [hm']
    simp)] at hstep
  rw [hstep, runBits_nil]
  by_cases hge : s.error_counter + 1 ≥ MAX_ERRORS
  · rw [if_pos hge, if_pos hge, if_pos hge]
    dsimp only
    rfl
  · rw [if_neg hge, if_neg hge, if_neg hge]
    dsimp only
    rw [Prod.mk.injEq, Decoder.mk.injEq]
    exact ⟨⟨h1, rfl, rfl, rfl, rfl, rfl, rfl, rfl, rfl, rfl, rfl, rfl, rfl⟩, rfl⟩

theorem runChunks_mismatch_steps (cs : List (List Nat)) : ∀ (s : Decoder),
    s.state = STATE_SYNCED → s.presync_bit_count = 0 →
    (∀ c ∈ cs, c.length = 26) → allChunksMismatch s cs = true →
    s.error_counter + cs.length ≤ 4 →
    (runChunks s cs).state = STATE_SYNCED ∧
    (runChunks s cs).presync_bit_count = 0 ∧
    (runChunks s cs).error_counter = s.error_counter + cs.length ∧
    (runChunks s cs).ps_name = s.ps_name := by
  induction cs with
  | nil => intro s h1 h2 _ _ _; exact ⟨h1, h2, rfl, rfl⟩
  | cons c cs ih =>
    intro s h1 h2 hlen hm hbound
    have hc : c.length = 26 := hlen c (by simp)
    simp only [allChunksMismatch, Bool.and_eq_true] at hm
    have hrun := runBits_synced_chunk c s h1 h2 hc hm.1
    have hlt : ¬ (s.error_counter + 1 ≥ MAX_ERRORS) := by
      simp only [MAX_ERRORS]
      simp only [List.length_cons] at hbound
      omega
    rw [if_neg hlt, if_neg hlt] at hrun
    have hm2 := hm.2
    rw [hrun] at hm2
    have hstep : runChunks s (c :: cs) = runChunks (runBits s c).1 cs := rfl
    rw [hstep, hrun]
    have hrest := ih _ rfl rfl (fun x hx => hlen x (by simp [hx])) hm2
      (by
        show s.error_counter + 1 + cs.length ≤ 4
        simp only [List.length_cons] at hbound
        omega)
    refine ⟨hrest.1, hrest.2.1, ?_, ?_⟩
    · rw [hrest.2.2.1]
      show s.error_counter + 1 + cs.length = _
      simp only [List.length_cons]
      omega
    · rw [hrest.2.2.2]

theorem runChunks_mismatch_overflow (cs : List (List Nat)) : ∀ (s : Decoder),
    s.state = STATE_SYNCED → s.presync_bit_count = 0 →
    (∀ c ∈ cs, c.length = 26) → allChunksMismatch s cs = true →
    s.error_counter + cs.length = 5 → cs ≠ [] →
    (runChunks s cs).state = STATE_SEARCH ∧
    (runChunks s cs).ps_name = List.replicate 8 32 := by
  induction cs with
  | nil => intro s _ _ _ _ _ hne; exact absurd rfl hne
  | cons c cs ih =>
    intro s h1 h2 hlen hm hsum _
    have hc : c.length = 26 := hlen c (by simp)
    simp only [allChunksMismatch, Bool.and_eq_true] at hm
    have hrun := runBits_synced_chunk c s h1 h2 hc hm.1
    cases cs with
    | nil =>
      have hge : s.error_counter + 1 ≥ MAX_ERRORS := by
        simp only [MAX_ERRORS]
        simp only [List.length_cons, List.length_nil] at hsum
        omega
      rw [if_pos hge, if_pos hge] at hrun
      have hstep : runChunks s [c] = (runBits s c).1 := rfl
      rw [hstep, hrun]
      exact ⟨rfl, rfl⟩
    | cons c2 cs2 =>
      have hlt : ¬ (s.error_counter + 1 ≥ MAX_ERRORS) := by
        simp only [MAX_ERRORS]
        simp only [List.length_cons] at hsum
        omega
      rw [if_neg hlt, if_neg hlt] at hrun
      have hm2 := hm.2
      rw [hrun] at hm2
      have hstep : runChunks s (c :: c2 :: cs2) =
          runChunks (runBits s c).1 (c2 :: cs2) := rfl
      rw [hstep, hrun]
      exact ih _ rfl rfl (fun x hx => hlen x (by simp [hx])) hm2
        (by
          show s.error_counter + 1 + (c2 :: cs2).length = 5
          simp only [List.length_cons] at hsum ⊢
          omega)
        (by simp)

/-- C3: once LOCKED with a clean error counter, any run of consecutive
26-bit-cadence checks whose syndromes all mismatch leaves the decoder in
SYNCED as long as there are at most 4 of them; a 5th consecutive mismatch
forces the transition to SEARCHING and clears the station-name buffer to
eight blanks. -/
theorem c3_error_tolerance (s : Decoder) (cs : List (List Nat))
    (h1 : s.state = STATE_SYNCED) (h2 : s.presync_bit_count = 0)
    (h3 : s.error_counter = 0) (hlen : ∀ c ∈ cs, c.length = 26)
    (hm : allChunksMismatch s cs = true) :
    (cs.length ≤ 4 → (runChunks s cs).state = STATE_SYNCED) ∧
    (cs.length = 5 → (runChunks s cs).state = STATE_SEARCH ∧
      (runChunks s cs).ps_name = List.replicate 8 32) := by
  constructor
  · intro hb
    exact (runChunks_mismatch_steps cs s h1 h2 hlen hm (by omega)).1
  · intro hb
    refine runChunks_mismatch_overflow cs s h1 h2 hlen hm (by omega) ?_
    intro hnil
    rw [hnil] at hb
    simp at hb

/-- A freshly locked decoder: SYNCED with zero error counter. -/
def lockedFresh : Decoder := { initDecoder with state := STATE_SYNCED }

/-- Five consecutive chunks of 26 zero symbols: every check sees syndrome
0, which matches no offset word, hence mismatches. -/
def fiveZeroChunks : List (List Nat) := List.replicate 5 (List.replicate 26 0)

set_option maxRecDepth 100000 in
/-- Witness for C3 at `lockedFresh` under five all-zero chunks. -/
theorem c3_error_tolerance_witness :
    lockedFresh.state = STATE_SYNCED ∧ lockedFresh.presync_bit_count = 0 ∧
    lockedFresh.error_counter = 0 ∧
    (∀ c ∈ fiveZeroChunks, c.length = 26) ∧
    allChunksMismatch lockedFresh fiveZeroChunks = true ∧
    ((fiveZeroChunks.length ≤ 4 →
       (runChunks lockedFresh fiveZeroChunks).state = STATE_SYNCED) ∧
     (fiveZeroChunks.length = 5 →
       (runChunks lockedFresh fiveZeroChunks).state = STATE_SEARCH ∧
       (runChunks lockedFresh fiveZeroChunks).ps_name = List.replicate 8 32)) :=
  ⟨rfl, rfl, rfl, by decide, by decide,
   c3_error_tolerance lockedFresh fiveZeroChunks rfl rfl rfl
     (by decide) (by decide)⟩
